import Mathlib

/-!
Verification development for the CAPIbara event-ingestion gateway.

The JavaScript source is shallowly embedded in Lean:

* JSON-like runtime values become the inductive type `Json`; JavaScript
  `undefined` (absent value / failed lookup) is modelled as `Option.none`,
  so a function that can yield `undefined` returns `Option Json`.
* JavaScript numbers are carried by their canonical string representation
  (the string `String(n)` produces); the template engine only ever
  stringifies numbers, so no arithmetic on them is needed.  IEEE-754
  rounding of extreme numeric literals is outside the model.
* Strings are processed as `List Char` (JS strings are sequences of code
  units; all inputs of interest are plain scalar text).
* Functions whose JavaScript counterpart can throw return `Option`.
* Recursions that Lean cannot compile structurally are given an explicit
  fuel argument seeded strictly above the recursion depth, so that they
  still evaluate by kernel reduction; each such definition is accompanied
  by a congruence lemma showing the fuel does not matter once sufficient.

Embedded sources: src/template-engine.js (token resolution), src/utils.js
(wildcard matching, route sorting, dedup), src/router.js (route matching,
route execution, aggregation, unmatched-event handling).
-/

/-! ## JSON-like values -/

/-- JSON-like runtime value of the template engine.  `num` carries the
canonical JavaScript string form of the number.  Object fields are kept in
insertion order with distinct keys, as produced by `JSON.parse`. -/
inductive Json where
  | str (s : String)
  | num (s : String)
  | bool (b : Bool)
  | null
  | arr (xs : List Json)
  | obj (fields : List (String × Json))
  deriving Repr

/-- Comma-separated join, as JavaScript `Array.prototype.join(",")`. -/
def joinWithComma : List String → String
  | [] => ""
  | [x] => x
  | x :: xs => x ++ "," ++ joinWithComma xs

/-- Fueled `String(value)` conversion.  JavaScript stringification:
strings verbatim, numbers by their canonical form, `true`/`false`,
`null ↦ "null"`, arrays join their elements with `","` (a `null` element
contributes the empty string), plain objects give `"[object Object]"`.
The fuel only limits array nesting depth and is seeded above it. -/
def jsToStringF : Nat → Json → String
  | _, .str s => s
  | _, .num s => s
  | _, .bool b => if b then "true" else "false"
  | _, .null => "null"
  | 0, .arr _ => ""
  | Nat.succ f, .arr xs =>
      joinWithComma (xs.map (fun x => match x with
        | .null => ""
        | y => jsToStringF f y))
  | _, .obj _ => "[object Object]"

mutual
/-- Nesting depth of a value (strictly positive). -/
def jsonDepth : Json → Nat
  | .arr xs => jsonListDepth xs + 1
  | .obj fs => jsonFieldsDepth fs + 1
  | _ => 1

def jsonListDepth : List Json → Nat
  | [] => 0
  | x :: xs => max (jsonDepth x) (jsonListDepth xs)

def jsonFieldsDepth : List (String × Json) → Nat
  | [] => 0
  | (_, v) :: fs => max (jsonDepth v) (jsonFieldsDepth fs)
end

/-- JavaScript `String(value)`.  `jsonDepth j` strictly exceeds the array
nesting depth below `j`, so the fuel never runs out. -/
def jsToString (j : Json) : String := jsToStringF (jsonDepth j) j

/-! ## Path resolution (`getValueByPath`, template-engine.js lines 324-345) -/

/-- JavaScript `path.split('.')`: splits at every dot, keeping empty
pieces (so the empty path gives one empty segment). -/
def splitDot : List Char → List (List Char)
  | [] => [[]]
  | c :: rest =>
      if c = '.' then [] :: splitDot rest
      else
        match splitDot rest with
        | h :: t => (c :: h) :: t
        | [] => [[c]]

/-- Digits-only segment to an array index (`parseInt` on an all-digit
string). -/
def digitsToNat (l : List Char) : Nat :=
  l.foldl (fun acc c => acc * 10 + (c.toNat - 48)) 0

/-- Decimal representation of a `Nat` (fuel-based; `n / 10 < n` for
`n ≥ 10`, so fuel `n + 1` always suffices). -/
def natToCharsF : Nat → Nat → List Char
  | 0, _ => []
  | Nat.succ f, n =>
      if n < 10 then [Char.ofNat (48 + n)]
      else natToCharsF f (n / 10) ++ [Char.ofNat (48 + n % 10)]

def natToString (n : Nat) : String := String.mk (natToCharsF (n + 1) n)

/-- First field with the given key (object keys are distinct). -/
def lookupField : List (String × Json) → List Char → Option Json
  | [], _ => none
  | (k, v) :: fs, part => if k.data = part then some v else lookupField fs part

/-- Loop body of `getValueByPath`: walk the remaining path segments, with
`none` standing for JavaScript `undefined`.  At each step a `null` or
`undefined` current value aborts with `undefined`; an array indexed by an
all-digit segment is indexed numerically (its `length` property is the
only non-index array property modelled; prototype-inherited properties
are outside the JSON data model); an object is looked up by key; any
other (scalar) value aborts with `undefined`. -/
def pathLookup : List (List Char) → Option Json → Option Json
  | [], cur => cur
  | _ :: _, none => none
  | _ :: _, some .null => none
  | part :: rest, some (.arr xs) =>
      if part ≠ [] ∧ part.all Char.isDigit then
        pathLookup rest (xs.get? (digitsToNat part))
      else if part = ("length").data then
        pathLookup rest (some (.num (natToString xs.length)))
      else pathLookup rest none
  | part :: rest, some (.obj fs) => pathLookup rest (lookupField fs part)
  | _ :: _, some _ => none

/-- `getValueByPath(path, context)`: dot-notation lookup, `none` is
JavaScript `undefined` (not found). -/
def getValueByPath (path : List Char) (context : Json) : Option Json :=
  pathLookup (splitDot path) (some context)

/-! ## Token expressions (template-engine.js lines 265-316) -/

/-- JavaScript `\s` / `String.prototype.trim` whitespace. -/
def isJsSpace (c : Char) : Bool :=
  c.toNat = 0x9 || c.toNat = 0xA || c.toNat = 0xB || c.toNat = 0xC ||
  c.toNat = 0xD || c.toNat = 0x20 || c.toNat = 0xA0 || c.toNat = 0x1680 ||
  (0x2000 ≤ c.toNat && c.toNat ≤ 0x200A) || c.toNat = 0x2028 ||
  c.toNat = 0x2029 || c.toNat = 0x202F || c.toNat = 0x205F ||
  c.toNat = 0x3000 || c.toNat = 0xFEFF

/-- JavaScript `String.prototype.trim`. -/
def jsTrim (l : List Char) : List Char :=
  ((l.dropWhile isJsSpace).reverse.dropWhile isJsSpace).reverse

/-- JavaScript regex `.` (without the `s` flag) excludes exactly these
line-terminator characters; they are nonetheless whitespace for `\s`. -/
def isLineTerm (c : Char) : Bool :=
  c.toNat = 0xA || c.toNat = 0xD || c.toNat = 0x2028 || c.toNat = 0x2029

/-- Substring test: `hay.includes(pat)`. -/
def containsSub (hay pat : List Char) : Bool :=
  hay.tails.any (fun t => pat.isPrefixOf t)

/-- The two-pipe separator of the fallback syntax. -/
def pipePair : List Char := ['|', '|']

/-- The tail `\s*(.+)$` of the fallback regex after the pipes: the star
may absorb any whitespace (line terminators included), but every
character of the second capture group is matched by `.`, which excludes
line terminators, and the group must reach the end of the string.
Greedy matching captures the remainder after the maximal whitespace run
when that remainder is nonempty; it fails if that remainder contains a
line terminator (backtracking only prepends characters, never removes
one); when the remainder is empty the star backtracks one character, so
the group is the final character when it is not a line terminator. -/
def fbGroup2 (t : List Char) : Option (List Char) :=
  let r0 := t.dropWhile isJsSpace
  if r0 ≠ [] then
    if r0.any isLineTerm then none else some r0
  else
    match t.getLast? with
    | some d => if isLineTerm d = true then none else some [d]
    | none => none

/-- The regex `/^(.+?)\s*\|\|\s*(.+)$/` of `resolveTokenExpression`.
The non-greedy first group tries ever longer nonempty prefixes; each of
its characters is matched by `.`, so the first group can never contain a
line terminator and the whole match fails once one is reached.  At each
candidate end, the first star absorbs the maximal whitespace run (the
only position where the literal `||` can follow), and the tail is
matched by `fbGroup2`; a tail failure resumes the scan with a longer
first group. -/
def splitFb : List Char → Option (List Char × List Char)
  | [] => none
  | c :: cs =>
      if isLineTerm c = true then none
      else
        match (if (cs.dropWhile isJsSpace).take 2 = pipePair then
                 fbGroup2 ((cs.dropWhile isJsSpace).drop 2)
               else none) with
        | some g2 => some ([c], g2)
        | none =>
            match splitFb cs with
            | some (g1, g2) => some (c :: g1, g2)
            | none => none

/-- The numeric-literal test `/^-?\d+(\.\d+)?$/`. -/
def isNumericLit (l : List Char) : Bool :=
  let body := if l.head? = some '-' then l.tail else l
  let intPart := body.takeWhile Char.isDigit
  let rest := body.dropWhile Char.isDigit
  intPart ≠ [] &&
    (rest = [] ||
      (rest.head? = some '.' && rest.tail ≠ [] && rest.tail.all Char.isDigit))

/-- Canonical JavaScript form of a numeric literal matching
`/^-?\d+(\.\d+)?$/` (what `String(parseFloat(s))` produces for literals
inside the float-exact range): leading zeros of the integer part and
trailing zeros of the fraction are dropped, an empty fraction drops the
dot, and negative zero prints as `"0"`. -/
def canonNumLit (l : List Char) : List Char :=
  let neg := l.head? = some '-'
  let body := if neg then l.tail else l
  let intRaw := body.takeWhile Char.isDigit
  let fracRaw := (body.dropWhile Char.isDigit).tail
  let intPart := intRaw.dropWhile (· = '0')
  let intPart := if intPart = [] then ['0'] else intPart
  let fracPart := (fracRaw.reverse.dropWhile (· = '0')).reverse
  let mag := intPart ++ (if fracPart = [] then [] else '.' :: fracPart)
  if neg ∧ mag ≠ ['0'] then '-' :: mag else mag

/-- `processFallbackValue` (template-engine.js lines 293-316): a quoted
string literal loses its quotes; then the literals `null`, `true`,
`false`; then a numeric literal; anything else is another path looked up
in the context.  `none` is JavaScript `undefined`. -/
def processFallbackValue (fallbackValue : List Char) (context : Json) : Option Json :=
  if (fallbackValue.head? = some '\'' ∧ fallbackValue.getLast? = some '\'') ∨
     (fallbackValue.head? = some '"' ∧ fallbackValue.getLast? = some '"') then
    some (.str (String.mk ((fallbackValue.drop 1).dropLast)))
  else if fallbackValue = ("null").data then some .null
  else if fallbackValue = ("true").data then some (.bool true)
  else if fallbackValue = ("false").data then some (.bool false)
  else if isNumericLit fallbackValue then
    some (.num (String.mk (canonNumLit fallbackValue)))
  else getValueByPath fallbackValue context

/-- The marker the source inserts for an unresolvable token. -/
def missingMarker : String := "__MISSING_VALUE__"

/-- `resolveTokenExpression` (template-engine.js lines 265-285): split on
the first `||` if the fallback regex matches; a present main value (even
falsy) is stringified; otherwise the fallback is processed and
stringified; otherwise the missing marker results. -/
def resolveTokenExpression (expression : List Char) (context : Json) : String :=
  match splitFb expression with
  | some (mainPath, fallbackValue) =>
      match getValueByPath (jsTrim mainPath) context with
      | some v => jsToString v
      | none =>
          match processFallbackValue (jsTrim fallbackValue) context with
          | some fb => jsToString fb
          | none => missingMarker
  | none =>
      match getValueByPath expression context with
      | some v => jsToString v
      | none => missingMarker

/-! ## String-leaf scanning (template-engine.js lines 237-257)

The token regex is `/\{\{([^}]+)\}\}/g`: two opening braces, one or more
non-closing-brace characters, two closing braces; on a failed match
the scan advances one character.  The scanner below is fueled (one unit
per character step); `scanTok` seeds the fuel above the string length. -/

def braceO : Char := Char.ofNat 123
def braceC : Char := Char.ofNat 125

def scanTokF (resolve : List Char → String) : Nat → List Char → (List Char × Bool)
  | 0, _ => ([], false)
  | Nat.succ _, [] => ([], false)
  | Nat.succ _, [c] => ([c], false)
  | Nat.succ f, c :: c2 :: rest =>
      if c = braceO ∧ c2 = braceO then
        if rest.takeWhile (fun d => d != braceC) ≠ [] ∧
            (rest.dropWhile (fun d => d != braceC)).take 2 = [braceC, braceC] then
          ((resolve (rest.takeWhile (fun d => d != braceC))).data ++
            (scanTokF resolve f ((rest.dropWhile (fun d => d != braceC)).drop 2)).1, true)
        else
          (c :: (scanTokF resolve f (c2 :: rest)).1, (scanTokF resolve f (c2 :: rest)).2)
      else
        (c :: (scanTokF resolve f (c2 :: rest)).1, (scanTokF resolve f (c2 :: rest)).2)

/-- One pass of the global token-replacing regex: the replaced string and
whether any token was found. -/
def scanTok (resolve : List Char → String) (l : List Char) : List Char × Bool :=
  scanTokF resolve (l.length + 1) l

/-- `resolveStringTokens` (template-engine.js lines 237-257): replace
every token by `resolveTokenExpression` of its trimmed content; a string
without tokens is returned verbatim; a replaced string containing the
missing marker becomes `undefined` (`none`). -/
def resolveStringTokens (s : String) (context : Json) : Option String :=
  let scanned := scanTok (fun content => resolveTokenExpression (jsTrim content) context) s.data
  if !scanned.2 then some s
  else if containsSub scanned.1 missingMarker.data then none
  else some (String.mk scanned.1)

/-! ## Recursive rendering (template-engine.js lines 201-229) -/

mutual
/-- `resolveTokens`: strings go through the token scanner (and may come
back `undefined`); arrays and objects are rebuilt keeping only members
whose rendering is defined; other literals pass through. -/
def resolveTokens (context : Json) : Json → Option Json
  | .str s => (resolveStringTokens s context).map .str
  | .arr xs => some (.arr (resolveList context xs))
  | .obj fs => some (.obj (resolveFields context fs))
  | .num s => some (.num s)
  | .bool b => some (.bool b)
  | .null => some .null

/-- Array elements whose rendering is `undefined` are dropped (the array
is re-indexed by construction). -/
def resolveList (context : Json) : List Json → List Json
  | [] => []
  | x :: xs =>
      match resolveTokens context x with
      | some r => r :: resolveList context xs
      | none => resolveList context xs

/-- Object entries whose value renders to `undefined` are dropped. -/
def resolveFields (context : Json) : List (String × Json) → List (String × Json)
  | [] => []
  | (k, v) :: fs =>
      match resolveTokens context v with
      | some r => (k, r) :: resolveFields context fs
      | none => resolveFields context fs
end

/-! ## Lemmas about the scanner and the fallback split -/

lemma containsSub_cons_false {c : Char} {cs pat : List Char}
    (h : containsSub (c :: cs) pat = false) : containsSub cs pat = false := by
  simp only [containsSub, List.tails, List.any_cons, Bool.or_eq_false_iff] at h
  exact h.2

lemma containsSub_of_suffix_take {cs t : List Char}
    (hs : t <:+ cs) (ht : t.take 2 = pipePair) : containsSub cs pipePair = true := by
  simp only [containsSub, List.any_eq_true]
  refine ⟨t, (List.mem_tails t cs).mpr hs, ?_⟩
  have h : pipePair <+: t := ht ▸ List.take_prefix 2 t
  exact List.isPrefixOf_iff_prefix.mpr h

lemma containsSub_middle (a pat b : List Char) :
    containsSub (a ++ (pat ++ b)) pat = true := by
  simp only [containsSub, List.any_eq_true]
  exact ⟨pat ++ b, (List.mem_tails _ _).mpr (List.suffix_append a (pat ++ b)),
    List.isPrefixOf_iff_prefix.mpr (List.prefix_append pat b)⟩

/-- An expression with no two adjacent pipes never matches the fallback
regex. -/
lemma splitFb_eq_none {l : List Char} (h : containsSub l pipePair = false) :
    splitFb l = none := by
  induction l with
  | nil => rfl
  | cons c cs ih =>
      have hcs : containsSub cs pipePair = false := containsSub_cons_false h
      have hcond : ¬ (cs.dropWhile isJsSpace).take 2 = pipePair := by
        intro h2
        have hsub := containsSub_of_suffix_take (List.dropWhile_suffix isJsSpace) h2
        rw [hcs] at hsub
        exact Bool.false_ne_true hsub
      by_cases hlc : isLineTerm c = true
      · simp only [splitFb, if_pos hlc]
      · simp only [splitFb, if_neg hlc, if_neg hcond, ih hcs]

lemma takeWhile_braces (pfx sfx : List Char) (h : ∀ c ∈ pfx, c ≠ braceC) :
    (pfx ++ braceC :: sfx).takeWhile (fun d => d != braceC) = pfx ∧
    (pfx ++ braceC :: sfx).dropWhile (fun d => d != braceC) = braceC :: sfx := by
  induction pfx with
  | nil => simp [List.takeWhile, List.dropWhile]
  | cons c pfx ih =>
      have hc : (c != braceC) = true := by
        simpa using h c (List.mem_cons_self c pfx)
      have ihh := ih (fun d hd => h d (List.mem_cons_of_mem c hd))
      simp only [List.cons_append, List.takeWhile_cons, List.dropWhile_cons, hc,
        if_true, ihh.1, ihh.2, and_self, true_and]

/-- One-step unfolding of the scanner on a list with at least two
characters (holds by definitional reduction). -/
lemma scanTokF_step (r : List Char → String) (f : Nat) (c c2 : Char) (rest : List Char) :
    scanTokF r (Nat.succ f) (c :: c2 :: rest) =
      if c = braceO ∧ c2 = braceO then
        if rest.takeWhile (fun d => d != braceC) ≠ [] ∧
            (rest.dropWhile (fun d => d != braceC)).take 2 = [braceC, braceC] then
          ((r (rest.takeWhile (fun d => d != braceC))).data ++
            (scanTokF r f ((rest.dropWhile (fun d => d != braceC)).drop 2)).1, true)
        else
          (c :: (scanTokF r f (c2 :: rest)).1, (scanTokF r f (c2 :: rest)).2)
      else
        (c :: (scanTokF r f (c2 :: rest)).1, (scanTokF r f (c2 :: rest)).2) := rfl

lemma scanTokF_nil_any (r : List Char → String) (f : Nat) :
    scanTokF r f [] = ([], false) := by cases f <;> rfl

lemma scanTokF_one (r : List Char → String) (f : Nat) (c : Char) :
    scanTokF r (Nat.succ f) [c] = ([c], false) := rfl

/-- A non-opening character is copied and scanning continues; the fuel
seeding makes this an exact unfolding. -/
lemma scanTok_cons_ne {r : List Char → String} {c : Char} {m : List Char}
    (hc : c ≠ braceO) :
    scanTok r (c :: m) = ((c :: (scanTok r m).1), (scanTok r m).2) := by
  cases m with
  | nil => simp [scanTok, scanTokF]
  | cons c2 rest =>
      show scanTokF r (Nat.succ ((c2 :: rest).length + 1)) (c :: c2 :: rest) = _
      rw [scanTokF_step, if_neg (fun h => hc h.1)]
      rfl

/-- A well-formed token at the head of the scan is replaced (general tail,
existential remainder). -/
lemma scanTok_token (r : List Char → String) (p post : List Char)
    (hp : p ≠ []) (hbc : ∀ c ∈ p, c ≠ braceC) :
    ∃ rest : List Char,
      scanTok r (braceO :: braceO :: (p ++ braceC :: braceC :: post)) =
        ((r p).data ++ rest, true) := by
  have htd := takeWhile_braces p (braceC :: post) hbc
  refine ⟨(scanTokF r ((braceO :: (p ++ braceC :: braceC :: post)).length + 1)
      (List.drop 2 (braceC :: braceC :: post))).1, ?_⟩
  show scanTokF r (Nat.succ ((braceO :: (p ++ braceC :: braceC :: post)).length + 1))
      (braceO :: braceO :: (p ++ braceC :: braceC :: post)) = _
  rw [scanTokF_step, if_pos ⟨rfl, rfl⟩, htd.1, htd.2, if_pos ⟨hp, rfl⟩]

/-- A leaf that is exactly one token scans to exactly its replacement. -/
lemma scanTok_single_token (r : List Char → String) (p : List Char)
    (hp : p ≠ []) (hbc : ∀ c ∈ p, c ≠ braceC) :
    scanTok r (braceO :: braceO :: (p ++ [braceC, braceC])) = ((r p).data, true) := by
  have htd := takeWhile_braces p [braceC] hbc
  show scanTokF r (Nat.succ ((braceO :: (p ++ [braceC, braceC])).length + 1))
      (braceO :: braceO :: (p ++ [braceC, braceC])) = _
  rw [scanTokF_step, if_pos ⟨rfl, rfl⟩, htd.1, htd.2, if_pos ⟨hp, rfl⟩]
  rw [show (List.drop 2 (braceC :: [braceC]) : List Char) = [] from rfl, scanTokF_nil_any]
  simp

/-- Scanning walks over an opening-brace-free prefix unchanged. -/
lemma scanTok_append_free {r : List Char → String} {pre l : List Char}
    (h : ∀ c ∈ pre, c ≠ braceO) :
    scanTok r (pre ++ l) = (pre ++ (scanTok r l).1, (scanTok r l).2) := by
  induction pre with
  | nil => simp
  | cons c pre ih =>
      have hc : c ≠ braceO := h c (List.mem_cons_self c pre)
      have ihh := ih (fun d hd => h d (List.mem_cons_of_mem c hd))
      rw [List.cons_append, scanTok_cons_ne hc, ihh]
      simp

/-- A pure-path token expression with a present value stringifies it. -/
lemma resolveTokenExpression_path_found {p : List Char} {context : Json}
    (h : containsSub p pipePair = false) {v : Json}
    (hv : getValueByPath p context = some v) :
    resolveTokenExpression p context = jsToString v := by
  simp only [resolveTokenExpression, splitFb_eq_none h, hv]

/-- A pure-path token expression with no value yields the missing marker. -/
lemma resolveTokenExpression_path_missing {p : List Char} {context : Json}
    (h : containsSub p pipePair = false)
    (hv : getValueByPath p context = none) :
    resolveTokenExpression p context = missingMarker := by
  simp only [resolveTokenExpression, splitFb_eq_none h, hv]

lemma data_braces_open : ("\x7b\x7b" : String).data = [braceO, braceO] := rfl

lemma data_braces_close : ("\x7d\x7d" : String).data = [braceC, braceC] := rfl

lemma data_single_token (p : String) :
    ("\x7b\x7b" ++ p ++ "\x7d\x7d").data = braceO :: braceO :: (p.data ++ [braceC, braceC]) := by
  rw [String.data_append, String.data_append, data_braces_open, data_braces_close]
  rfl

lemma data_embedded_token (pre p post : String) :
    (pre ++ "\x7b\x7b" ++ p ++ "\x7d\x7d" ++ post).data =
      pre.data ++ (braceO :: braceO :: (p.data ++ braceC :: braceC :: post.data)) := by
  rw [String.data_append, String.data_append, String.data_append, String.data_append,
    data_braces_open, data_braces_close]
  simp [List.append_assoc]

/-! ## Sanity evaluations (concrete behaviour of the embedding) -/

example : getValueByPath ("a.b").data (.obj [("a", .obj [("b", .null)])]) = some .null := rfl

example : resolveTokenExpression ("x").data (.obj []) = missingMarker := rfl

example :
    resolveTokenExpression ("missing.path || 'USD'").data (.obj []) = "USD" := rfl

example : splitFb ("a\nb || x").data = none := rfl

example : splitFb ("a || b\n").data = none := rfl

example : splitFb ("a || \n || x").data = some (("a").data, ("|| x").data) := rfl

example :
    resolveTokenExpression ("a\nb || 'USD'").data (.obj []) = missingMarker := rfl

example :
    resolveStringTokens "\x7b\x7ba.b\x7d\x7d" (.obj [("a", .obj [("b", .null)])]) =
      some "null" := rfl

example :
    resolveTokens (Json.obj []) (Json.obj [("a", Json.str "\x7b\x7bx\x7d\x7d")]) =
      some (Json.obj []) := rfl

/-! ## Claim C5 -/

/-- C5: path resolution distinguishes a present `null` from NOT_FOUND —
whenever a dotted path resolves to the value `null` (not to `undefined`),
a template string leaf consisting of exactly that token renders to the
literal string `"null"` instead of being omitted.  (The concrete
instance `resolve("a.b", {a:{b:null}})` is the witness below.) -/
theorem presentNullRendersLiteralNull
    (context : Json) (p : String)
    (ht : jsTrim p.data = p.data) (hne : p.data ≠ [])
    (hpipe : containsSub p.data pipePair = false)
    (hbc : ∀ c ∈ p.data, c ≠ braceC)
    (hval : getValueByPath p.data context = some Json.null) :
    resolveTokens context (Json.str ("\x7b\x7b" ++ p ++ "\x7d\x7d")) =
      some (Json.str "null") := by
  have hscan := scanTok_single_token
    (fun content => resolveTokenExpression (jsTrim content) context) p.data hne hbc
  simp only [resolveTokens, resolveStringTokens, data_single_token, hscan]
  simp only [ht, resolveTokenExpression_path_found hpipe hval]
  rfl

/-- C5 witness: the concrete instance of the claim —
`resolve("a.b", {a:{b:null}})` yields the value `null` (not the missing
sentinel), and the leaf `"{{a.b}}"` renders to the string `"null"`. -/
theorem presentNullRendersLiteralNull_witness :
    getValueByPath ("a.b").data (Json.obj [("a", Json.obj [("b", Json.null)])]) =
      some Json.null ∧
    resolveTokens (Json.obj [("a", Json.obj [("b", Json.null)])])
        (Json.str ("\x7b\x7b" ++ "a.b" ++ "\x7d\x7d")) = some (Json.str "null") :=
  ⟨rfl, presentNullRendersLiteralNull (Json.obj [("a", Json.obj [("b", Json.null)])])
    "a.b" rfl (by decide) (by decide) (by decide) rfl⟩

/-! ## Claim C10 -/

/-- C10: whether a tokenized leaf survives is decided by searching the
substituted string for the sentinel substring, so a context whose present
value stringifies to the sentinel makes the leaf vanish: here `x` is
present (it resolves to the string `"__MISSING_VALUE__"`, not to
NOT_FOUND), every token of the leaf resolves, yet the rendered object
drops the key as if the token were missing. -/
theorem presentSentinelValueOmitsLeaf :
    getValueByPath ("x").data (Json.obj [("x", Json.str "__MISSING_VALUE__")]) =
      some (Json.str "__MISSING_VALUE__") ∧
    resolveTokenExpression ("x").data (Json.obj [("x", Json.str "__MISSING_VALUE__")]) =
      "__MISSING_VALUE__" ∧
    resolveTokens (Json.obj [("x", Json.str "__MISSING_VALUE__")])
        (Json.obj [("a", Json.str "\x7b\x7bx\x7d\x7d")]) = some (Json.obj []) :=
  ⟨rfl, rfl, rfl⟩

/-! ## Claim C2 -/

/-- C2: a token that resolves to missing causes the whole string leaf to
be omitted: (1) a leaf containing such a token (amid arbitrary
non-brace-opening text before and arbitrary text after) resolves to
`undefined` — no partially substituted string is produced; (2) an object
key whose value renders to `undefined` is dropped, the sibling entries
surviving; (3) an array slot rendering to `undefined` is dropped with the
remaining elements concatenated (re-indexed); (4) in particular the
template `{"a": "{{x}}"}` rendered against `{}` yields `{}`. -/
theorem missingTokenOmitsLeaf :
    (∀ (context : Json) (pre p post : String),
        (∀ c ∈ pre.data, c ≠ braceO) →
        jsTrim p.data = p.data → p.data ≠ [] → (∀ c ∈ p.data, c ≠ braceC) →
        resolveTokenExpression p.data context = missingMarker →
        resolveStringTokens (pre ++ "\x7b\x7b" ++ p ++ "\x7d\x7d" ++ post) context = none) ∧
    (∀ (context : Json) (k : String) (v : Json) (fs1 fs2 : List (String × Json)),
        resolveTokens context v = none →
        resolveFields context (fs1 ++ (k, v) :: fs2) =
          resolveFields context fs1 ++ resolveFields context fs2) ∧
    (∀ (context : Json) (v : Json) (xs1 xs2 : List Json),
        resolveTokens context v = none →
        resolveList context (xs1 ++ v :: xs2) =
          resolveList context xs1 ++ resolveList context xs2) ∧
    resolveTokens (Json.obj []) (Json.obj [("a", Json.str "\x7b\x7bx\x7d\x7d")]) =
      some (Json.obj []) := by
  refine ⟨?_, ?_, ?_, rfl⟩
  · intro context pre p post hpre ht hne hbc hmiss
    obtain ⟨rest, hrest⟩ := scanTok_token
      (fun content => resolveTokenExpression (jsTrim content) context)
      p.data post.data hne hbc
    simp only [resolveStringTokens, data_embedded_token]
    rw [scanTok_append_free hpre]
    simp only [ht, hmiss] at hrest
    rw [hrest]
    simp [containsSub_middle pre.data missingMarker.data rest]
  · intro context k v fs1 fs2 hnone
    induction fs1 with
    | nil => simp [resolveFields, hnone]
    | cons kv fs1 ih =>
        obtain ⟨k1, v1⟩ := kv
        cases hcase : resolveTokens context v1 <;>
          simp [resolveFields, hcase, ih]
  · intro context v xs1 xs2 hnone
    induction xs1 with
    | nil => simp [resolveList, hnone]
    | cons x xs1 ih =>
        cases hcase : resolveTokens context x <;>
          simp [resolveList, hcase, ih]

/-- C2 witness: the concrete instance — `{"a": "{{x}}"}` against the
empty context: the leaf resolves to `undefined` and the key is dropped. -/
theorem missingTokenOmitsLeaf_witness :
    resolveStringTokens ("" ++ "\x7b\x7b" ++ "x" ++ "\x7d\x7d" ++ "") (Json.obj []) = none :=
  missingTokenOmitsLeaf.1 (Json.obj []) "" "x" ""
    (by decide) rfl (by decide) (by decide) rfl


/-! ## Claim C3: the fallback split -/

lemma splitFb_cons (c : Char) (cs : List Char) :
    splitFb (c :: cs) =
      (if isLineTerm c = true then none
       else
         match (if (cs.dropWhile isJsSpace).take 2 = pipePair then
                  fbGroup2 ((cs.dropWhile isJsSpace).drop 2)
                else none) with
         | some g2 => some ([c], g2)
         | none =>
             match splitFb cs with
             | some (g1, g2) => some (c :: g1, g2)
             | none => none) := rfl

lemma dropWhile_append_all {a b : List Char}
    (h : ∀ d ∈ a, isJsSpace d = true) :
    (a ++ b).dropWhile isJsSpace = b.dropWhile isJsSpace := by
  induction a with
  | nil => rfl
  | cons x a ih =>
      have hx := h x (List.mem_cons_self x a)
      simp only [List.cons_append, List.dropWhile_cons, hx, if_true]
      exact ih (fun d hd => h d (List.mem_cons_of_mem x hd))

lemma dropWhile_append_stop {a b : List Char}
    (h : a.dropWhile isJsSpace ≠ []) :
    (a ++ b).dropWhile isJsSpace = a.dropWhile isJsSpace ++ b := by
  induction a with
  | nil => exact absurd rfl h
  | cons x a ih =>
      by_cases hx : isJsSpace x = true
      · have h' : a.dropWhile isJsSpace ≠ [] := by
          simpa [List.dropWhile_cons, hx] using h
        simp only [List.cons_append, List.dropWhile_cons, hx, if_true]
        exact ih h'
      · have hx' : isJsSpace x = false := by simpa using hx
        simp [List.dropWhile_cons, hx']

lemma jsTrim_append_spaces {l w : List Char}
    (h : ∀ c ∈ w, isJsSpace c = true) : jsTrim (l ++ w) = jsTrim l := by
  by_cases hl : l.dropWhile isJsSpace = []
  · have hall : ∀ d ∈ l, isJsSpace d = true :=
      fun d hd => List.dropWhile_eq_nil_iff.mp hl d hd
    have hw : (l ++ w).dropWhile isJsSpace = w.dropWhile isJsSpace :=
      dropWhile_append_all hall
    have hwnil : w.dropWhile isJsSpace = [] :=
      List.dropWhile_eq_nil_iff.mpr (fun x hx => h x hx)
    simp [jsTrim, hw, hwnil, hl]
  · have hw := dropWhile_append_stop (b := w) hl
    have hrev : ∀ c ∈ w.reverse, isJsSpace c = true := by
      intro c hc; exact h c (List.mem_reverse.mp hc)
    simp only [jsTrim, hw, List.reverse_append, dropWhile_append_all hrev]

lemma jsTrim_cons_space (l : List Char) : jsTrim (' ' :: l) = jsTrim l := by
  simp [jsTrim, List.dropWhile_cons, show isJsSpace ' ' = true from rfl]

lemma dropWhile_isJsSpace_idem (l : List Char) :
    (l.dropWhile isJsSpace).dropWhile isJsSpace = l.dropWhile isJsSpace := by
  induction l with
  | nil => rfl
  | cons c cs ih =>
      by_cases hc : isJsSpace c = true
      · simp [List.dropWhile_cons, hc, ih]
      · simp [List.dropWhile_cons, hc]

lemma jsTrim_dropWhile (l : List Char) :
    jsTrim (l.dropWhile isJsSpace) = jsTrim l := by
  simp [jsTrim, dropWhile_isJsSpace_idem]

/-- The tail matcher on `' ' :: f` for a line-terminator-free nonempty
fallback text `f`: the regex tail always matches, capturing a group that
trims to the same string as `f`. -/
lemma fbGroup2_space_cons (f : List Char) (hf : f ≠ [])
    (hflt : ∀ c ∈ f, isLineTerm c = false) :
    ∃ g2, fbGroup2 (' ' :: f) = some g2 ∧ jsTrim g2 = jsTrim f := by
  have hdrop : (' ' :: f).dropWhile isJsSpace = f.dropWhile isJsSpace := by
    simp [List.dropWhile_cons, show isJsSpace ' ' = true from rfl]
  by_cases hr0 : f.dropWhile isJsSpace = []
  · -- `f` is all whitespace: the star backtracks one character and the
    -- group is the final (whitespace, non-line-terminator) character
    have hall : ∀ d ∈ f, isJsSpace d = true :=
      fun d hd => List.dropWhile_eq_nil_iff.mp hr0 d hd
    cases f with
    | nil => exact absurd rfl hf
    | cons x xs =>
        have hglast : (x :: xs).getLast? = some ((x :: xs).getLast (by simp)) :=
          List.getLast?_eq_getLast _ (by simp)
        have hdmem : (x :: xs).getLast (by simp) ∈ x :: xs := List.getLast_mem _
        refine ⟨[(x :: xs).getLast (by simp)], ?_, ?_⟩
        · simp only [fbGroup2, hdrop, hr0]
          rw [if_neg (by simp)]
          rw [List.getLast?_cons_cons, hglast]
          simp [hflt _ hdmem]
        · have hds : isJsSpace ((x :: xs).getLast (by simp)) = true := hall _ hdmem
          have h1 : jsTrim [(x :: xs).getLast (by simp)] = [] := by
            simp [jsTrim, List.dropWhile_cons, hds]
          have h2 : jsTrim (x :: xs) = [] := by
            simp [jsTrim, hr0]
          rw [h1, h2]
  · -- the remainder after the maximal whitespace run is the group
    have hsub : ∀ x ∈ f.dropWhile isJsSpace, x ∈ f :=
      fun x hx => (List.dropWhile_suffix isJsSpace).subset hx
    have hany : (f.dropWhile isJsSpace).any isLineTerm = false := by
      rw [List.any_eq_false]
      intro x hx
      rw [hflt x (hsub x hx)]
      exact Bool.false_ne_true
    refine ⟨f.dropWhile isJsSpace, ?_, jsTrim_dropWhile f⟩
    simp only [fbGroup2, hdrop]
    rw [if_pos hr0, if_neg (by rw [hany]; exact Bool.false_ne_true)]

/-- Where the fallback regex splits `p ++ " || " ++ f` for a
line-terminator-free path `p` without adjacent pipes and a nonempty
line-terminator-free fallback text `f`: at the inserted separator.  The
first group is `p` with some trailing whitespace absorbed (possibly
borrowing the separator's first space when `p` is all whitespace), and
the second group trims to the same string as `f`. -/
lemma splitFb_mk :
    ∀ (p f : List Char), f ≠ [] → containsSub p pipePair = false →
      (∀ c ∈ p, isLineTerm c = false) → (∀ c ∈ f, isLineTerm c = false) →
      ∃ g1 w g2, splitFb (p ++ ' ' :: '|' :: '|' :: ' ' :: f) = some (g1, g2) ∧
        g1 ++ w = p ++ [' '] ∧ (∀ c ∈ w, isJsSpace c = true) ∧ jsTrim g2 = jsTrim f := by
  intro p
  induction p with
  | nil =>
      intro f hf _ _ hflt
      obtain ⟨g2, hg2, hg2t⟩ := fbGroup2_space_cons f hf hflt
      refine ⟨[' '], [], g2, ?_, rfl, (by intro c hc; cases hc), hg2t⟩
      rw [List.nil_append, splitFb_cons]
      rw [if_neg (show ¬ isLineTerm ' ' = true by decide)]
      rw [show (('|' :: '|' :: ' ' :: f).dropWhile isJsSpace) = '|' :: '|' :: ' ' :: f
        from by simp [List.dropWhile_cons, show isJsSpace '|' = false from rfl]]
      rw [if_pos (show ('|' :: '|' :: ' ' :: f).take 2 = pipePair from rfl)]
      rw [show ('|' :: '|' :: ' ' :: f).drop 2 = ' ' :: f from rfl, hg2]
  | cons c p ih =>
      intro f hf hp hplt hflt
      have hp' : containsSub p pipePair = false := containsSub_cons_false hp
      have hplt' : ∀ x ∈ p, isLineTerm x = false :=
        fun x hx => hplt x (List.mem_cons_of_mem c hx)
      have hlc : ¬ isLineTerm c = true := by
        rw [hplt c (List.mem_cons_self c p)]
        exact Bool.false_ne_true
      by_cases hsp : ∀ d ∈ p, isJsSpace d = true
      · -- the rest of the main path is all whitespace: group1 is just [c]
        obtain ⟨g2, hg2, hg2t⟩ := fbGroup2_space_cons f hf hflt
        have hdrop : ((p ++ ' ' :: '|' :: '|' :: ' ' :: f).dropWhile isJsSpace) =
            '|' :: '|' :: ' ' :: f := by
          rw [dropWhile_append_all hsp]
          simp [List.dropWhile_cons, show isJsSpace ' ' = true from rfl,
            show isJsSpace '|' = false from rfl]
        refine ⟨[c], p ++ [' '], g2, ?_, by simp, ?_, hg2t⟩
        · rw [List.cons_append, splitFb_cons, if_neg hlc, hdrop]
          rw [if_pos (show ('|' :: '|' :: ' ' :: f).take 2 = pipePair from rfl)]
          rw [show ('|' :: '|' :: ' ' :: f).drop 2 = ' ' :: f from rfl, hg2]
        · intro d hd
          rcases List.mem_append.mp hd with h1 | h2
          · exact hsp d h1
          · simp only [List.mem_singleton] at h2
            subst h2
            rfl
      · -- a non-whitespace character remains in `p`: no split here, recurse
        have hne : p.dropWhile isJsSpace ≠ [] := by
          intro hcontra
          exact hsp (fun d hd => List.dropWhile_eq_nil_iff.mp hcontra d hd)
        have hdrop := dropWhile_append_stop (b := ' ' :: '|' :: '|' :: ' ' :: f) hne
        have hcond : ¬ ((p ++ ' ' :: '|' :: '|' :: ' ' :: f).dropWhile isJsSpace).take 2 =
            pipePair := by
          rw [hdrop]
          intro h2
          cases hdw : p.dropWhile isJsSpace with
          | nil => exact hne hdw
          | cons x t =>
              cases t with
              | nil =>
                  rw [hdw] at h2
                  simp [pipePair] at h2
              | cons y t2 =>
                  rw [hdw] at h2
                  have h2' : (x :: y :: t2).take 2 = pipePair := by
                    simpa using h2
                  have hsfx : (x :: y :: t2) <:+ p :=
                    hdw ▸ List.dropWhile_suffix isJsSpace
                  have hsub := containsSub_of_suffix_take hsfx h2'
                  rw [hp'] at hsub
                  exact Bool.false_ne_true hsub
        obtain ⟨g1, w, g2, hrec, hgw, hwsp, hg2t⟩ := ih f hf hp' hplt' hflt
        refine ⟨c :: g1, w, g2, ?_, by simp [hgw], hwsp, hg2t⟩
        rw [List.cons_append, splitFb_cons, if_neg hlc, if_neg hcond, hrec]

/-- C3: fallback precedence for a token `{{path || fallback}}` (the token
content being the path, the literal two-pipe separator, and the fallback
text; a well-formed token is single-line — the regex's `.` matches no
line terminator — with no adjacent pipes inside the path and a nonempty
fallback): when the path resolves to any present value — falsy values
such as `0`, `false`, `null` or `""` included — the token yields the
stringified present value and the fallback expression is never
consulted; when the path is NOT_FOUND, the fallback is processed (quoted
string literal, `null`, `true`/`false`, numeric literal, else another
path, in that order, per `processFallbackValue`) and its stringified
value used; when the fallback is itself unresolved the token yields the
missing marker. -/
theorem fallbackPrecedence (context : Json) (p f : List Char)
    (hp : containsSub p pipePair = false)
    (hplt : ∀ c ∈ p, isLineTerm c = false)
    (hf : f ≠ [])
    (hflt : ∀ c ∈ f, isLineTerm c = false) :
    (∀ v : Json, getValueByPath (jsTrim p) context = some v →
        resolveTokenExpression (p ++ ' ' :: '|' :: '|' :: ' ' :: f) context =
          jsToString v) ∧
    (getValueByPath (jsTrim p) context = none →
        resolveTokenExpression (p ++ ' ' :: '|' :: '|' :: ' ' :: f) context =
          (match processFallbackValue (jsTrim f) context with
           | some fb => jsToString fb
           | none => missingMarker)) := by
  obtain ⟨g1, w, g2, hsplit, hgw, hwsp, hg2t⟩ := splitFb_mk p f hf hp hplt hflt
  have hsp1 : ∀ c ∈ ([' '] : List Char), isJsSpace c = true := by
    intro c hc
    simp only [List.mem_singleton] at hc
    subst hc
    rfl
  have htg : jsTrim g1 = jsTrim p := by
    have h1 : jsTrim (g1 ++ w) = jsTrim g1 := jsTrim_append_spaces hwsp
    have h2 : jsTrim (p ++ [' ']) = jsTrim p := jsTrim_append_spaces hsp1
    rw [← h1, hgw, h2]
  constructor
  · intro v hv
    simp only [resolveTokenExpression, hsplit, htg, hv]
  · intro hv
    simp only [resolveTokenExpression, hsplit, htg, hv, hg2t]

/-- C3 witness: `{{missing.path || 'USD'}}` against a context lacking
`missing` yields `"USD"`, and `{{present || 'USD'}}` with `present`
bound to the (falsy) number `0` yields `"0"`, not the fallback. -/
theorem fallbackPrecedence_witness :
    resolveTokenExpression
        (("missing.path").data ++ ' ' :: '|' :: '|' :: ' ' :: ("'USD'").data)
        (Json.obj []) = "USD" ∧
    resolveTokenExpression
        (("present").data ++ ' ' :: '|' :: '|' :: ' ' :: ("'USD'").data)
        (Json.obj [("present", Json.num "0")]) = "0" :=
  ⟨((fallbackPrecedence (Json.obj []) ("missing.path").data ("'USD'").data
      (by decide) (by decide) (by decide) (by decide)).2 rfl).trans rfl,
   (fallbackPrecedence (Json.obj [("present", Json.num "0")]) ("present").data
      ("'USD'").data (by decide) (by decide) (by decide) (by decide)).1
     (Json.num "0") rfl⟩

/-! ## Wildcard matching (`matchesWildcard`, utils.js lines 75-91)

The source builds a regex from the pattern: the characters
`. + ^ $ { } ( ) | [ ] \` are escaped (made literal), each `*` becomes
`.*`, and the result is anchored with `^...$`.  Two consequences of that
exact construction are modelled:

* `?` is NOT in the escape class, so an unescaped `?` acts as a regex
  quantifier: it makes the preceding atom optional (a second `?` only
  marks laziness, which does not change the accepted language; a third
  `?`, or a `?` with no preceding atom, makes `new RegExp` throw).
* the `.` of `.*` matches any character EXCEPT a line terminator
  (`\n`, `\r`, U+2028, U+2029).

The compiled regex is therefore a sequence of atoms — literal character,
optional literal character, or dot-star — matched against the whole
value. -/

inductive RAtom where
  | lit (c : Char)
  | opt (c : Char)
  | star
  deriving Repr, DecidableEq

/-- Compile the pattern into regex atoms, tracking in `q` how many more
`?` quantifiers the latest atom still accepts (2 for a fresh literal:
optional then lazy; 1 for `.*`: lazy only).  `none` models the
`SyntaxError` thrown by `new RegExp` on a dangling quantifier. -/
def compileAux : List RAtom → Nat → List Char → Option (List RAtom)
  | acc, _, [] => some acc.reverse
  | acc, q, c :: cs =>
      if c = '?' then
        match q, acc with
        | 0, _ => none
        | Nat.succ q', RAtom.lit a :: t => compileAux (RAtom.opt a :: t) q' cs
        | Nat.succ q', acc' => compileAux acc' q' cs
      else if c = '*' then compileAux (RAtom.star :: acc) 1 cs
      else compileAux (RAtom.lit c :: acc) 2 cs

def compilePattern (pattern : List Char) : Option (List RAtom) :=
  compileAux [] 0 pattern

/-- Let a dot-star consume a (line-terminator-free) prefix and hand every
remaining suffix to the rest of the regex. -/
def starScan (next : List Char → Bool) : List Char → Bool
  | [] => next []
  | d :: s' => next (d :: s') || (!isLineTerm d && starScan next s')

/-- Anchored matching of the compiled atoms against the whole value. -/
def matchAtoms : List RAtom → List Char → Bool
  | [], s => s.isEmpty
  | RAtom.lit c :: as, s =>
      match s with
      | [] => false
      | d :: s' => c == d && matchAtoms as s'
  | RAtom.opt c :: as, s =>
      match s with
      | [] => matchAtoms as []
      | d :: s' => (c == d && matchAtoms as s') || matchAtoms as (d :: s')
  | RAtom.star :: as, s => starScan (matchAtoms as) s

/-- `matchesWildcard(pattern, value)`: `"*"` matches everything; a
pattern without `*` is exact equality; otherwise the compiled anchored
regex is tested (`none` models the construction throwing). -/
def matchesWildcard (pattern value : String) : Option Bool :=
  if pattern = "*" then some true
  else if pattern.data.contains '*' = false then some (pattern == value)
  else (compilePattern pattern.data).map (fun atoms => matchAtoms atoms value.data)

/-- The matching the CLAIM describes, wording for wording: escaping all
regex metacharacters except `*` makes every non-star pattern character
match itself literally, and each `*` matches zero or more of ANY
character, the whole pattern anchored. -/
def globScan (next : List Char → Bool) : List Char → Bool
  | [] => next []
  | d :: s' => next (d :: s') || globScan next s'

def globMatch : List Char → List Char → Bool
  | [], s => s.isEmpty
  | c :: ps, s =>
      if c = '*' then globScan (globMatch ps) s
      else
        match s with
        | [] => false
        | d :: s' => c == d && globMatch ps s'

example : matchesWildcard "purchase.*" "purchase.refund" = some true := rfl
example : matchesWildcard "purchase.*" "purchase" = some false := rfl
example : matchesWildcard "a?*" "x" = some true := rfl
example : matchesWildcard "?a*" "x" = none := rfl

/-! ## Claim C7 -/

def toAtom (c : Char) : RAtom := if c = '*' then RAtom.star else RAtom.lit c

lemma compileAux_no_question :
    ∀ (p : List Char) (acc : List RAtom) (q : Nat), p.contains '?' = false →
      compileAux acc q p = some (acc.reverse ++ p.map toAtom) := by
  intro p
  induction p with
  | nil => intro acc q _; simp [compileAux]
  | cons c cs ih =>
      intro acc q h
      simp only [List.contains_cons, Bool.or_eq_false_iff] at h
      have hc : c ≠ '?' := by
        intro hcontra
        subst hcontra
        simp at h
      by_cases hstar : c = '*'
      · subst hstar
        simp only [compileAux, if_neg hc, if_pos rfl, ih _ 1 h.2]
        simp [toAtom]
      · simp only [compileAux, if_neg hc, if_neg hstar, ih _ 2 h.2]
        simp [toAtom, hstar]

lemma matchAtoms_toAtoms (p : List Char) :
    ∀ s : List Char, (∀ c ∈ s, isLineTerm c = false) →
      matchAtoms (p.map toAtom) s = globMatch p s := by
  induction p with
  | nil => intro s _; rfl
  | cons c ps ih =>
      intro s hs
      by_cases hc : c = '*'
      · subst hc
        show matchAtoms (RAtom.star :: ps.map toAtom) s = _
        simp only [globMatch, if_pos rfl]
        show starScan (matchAtoms (ps.map toAtom)) s = globScan (globMatch ps) s
        induction s with
        | nil => simpa [starScan, globScan] using ih [] (by intro c hc; cases hc)
        | cons d s' ihs =>
            have hd : isLineTerm d = false := hs d (List.mem_cons_self d s')
            have hs' : ∀ c ∈ s', isLineTerm c = false :=
              fun c hcm => hs c (List.mem_cons_of_mem d hcm)
            simp only [starScan, globScan, hd, Bool.not_false, Bool.true_and,
              ih (d :: s') hs, ihs hs']
      · have hmap : (c :: ps).map toAtom = RAtom.lit c :: ps.map toAtom := by
          simp [toAtom, hc]
        rw [hmap]
        simp only [globMatch, if_neg hc]
        cases s with
        | nil => rfl
        | cons d s' =>
            have hs' : ∀ x ∈ s', isLineTerm x = false :=
              fun x hxm => hs x (List.mem_cons_of_mem d hxm)
            show (c == d && matchAtoms (ps.map toAtom) s') = _
            rw [ih s' hs']

lemma globMatch_star_all : ∀ s : List Char, globMatch ['*'] s = true := by
  intro s
  show globScan (globMatch []) s = true
  induction s with
  | nil => rfl
  | cons d s' ih => simp [globScan, ih]

/-- C7 (amended): `matches("*", v)` is always true, and a pattern without
`*` matches exactly by string equality — as the claim states.  The third
clause holds in an amended form: the code escapes every regex
metacharacter EXCEPT `*` and `?`, and `*` becomes `.*` whose dot does not
cross line terminators; therefore the claimed semantics (anchored
literal-except-star matching, star = any characters) is what the code
computes only for patterns without `?` and values without line
terminators. -/
theorem wildcardSemantics :
    (∀ v : String, matchesWildcard "*" v = some true) ∧
    (∀ p v : String, p.data.contains '*' = false →
        matchesWildcard p v = some (p == v)) ∧
    (∀ p v : String, p.data.contains '*' = true →
        p.data.contains '?' = false →
        (∀ c ∈ v.data, isLineTerm c = false) →
        matchesWildcard p v = some (globMatch p.data v.data)) := by
  refine ⟨fun v => rfl, ?_, ?_⟩
  · intro p v h
    have hne : p ≠ "*" := by
      intro hcontra
      subst hcontra
      simp at h
    simp only [matchesWildcard, if_neg hne, h]
    simp
  · intro p v hstar hq hlt
    by_cases hne : p = "*"
    · subst hne
      show some true = some (globMatch ['*'] v.data)
      rw [globMatch_star_all]
    · have hsf : ¬ p.data.contains '*' = false := by
        rw [hstar]
        decide
      simp only [matchesWildcard, if_neg hne, if_neg hsf, compilePattern,
        compileAux_no_question p.data [] 0 hq]
      simp only [List.reverse_nil, List.nil_append, Option.map_some']
      rw [matchAtoms_toAtoms p.data v.data hlt]

/-- C7 witness: on the spec's own boundary examples (no `?`, no line
terminators) the code and the claimed glob semantics agree —
`matches("purchase.*","purchase.refund")` is true and
`matches("purchase.*","purchase")` is false. -/
theorem wildcardSemantics_witness :
    matchesWildcard "purchase.*" "purchase.refund" =
      some (globMatch ("purchase.*").data ("purchase.refund").data) ∧
    globMatch ("purchase.*").data ("purchase.refund").data = true ∧
    matchesWildcard "purchase.*" "purchase" =
      some (globMatch ("purchase.*").data ("purchase").data) ∧
    globMatch ("purchase.*").data ("purchase").data = false :=
  ⟨wildcardSemantics.2.2 "purchase.*" "purchase.refund" (by decide) (by decide) (by decide),
   rfl,
   wildcardSemantics.2.2 "purchase.*" "purchase" (by decide) (by decide) (by decide),
   rfl⟩

/-- C7 counterexample: the claim's third clause — "escape ALL regex
metacharacters except `*`, `*` = zero or more of ANY character" — is not
what the code does.  `?` is not escaped: for pattern `"a?*"` the code
builds `/^a?.*$/` and accepts `"x"` (the claimed semantics demands a
literal `a?` prefix and rejects it); and the dot of `.*` does not match a
newline: for pattern `"a*"` the code rejects `"a\n"` while the claimed
semantics accepts it. -/
theorem wildcardClaimCounterexample :
    matchesWildcard "a?*" "x" = some true ∧
    globMatch ("a?*").data ("x").data = false ∧
    matchesWildcard "a*" "a\n" = some false ∧
    globMatch ("a*").data ("a\n").data = true :=
  ⟨rfl, rfl, rfl, rfl⟩

/-! ## Routes and sorting (`sortRoutesByPriority`, utils.js lines 98-118) -/

/-- A route's configuration, with the fields read by the embedded
functions (`headers` and the `auth` descriptor are consumed only by the
external collaborators, abstracted as oracles below).  Absent optional
fields are `none`; `multi` and `fallback` are falsy when absent, hence
plain `Bool`. -/
structure Route where
  name : Option String := none
  event_match : String := "*"
  target_url : String := ""
  methods : Option (List String) := none
  template : Option String := none
  priority : Option Int := none
  multi : Bool := false
  fallback : Bool := false
  deriving Repr, DecidableEq

/-- Comparison of effective priorities (absent = Infinity): the
comparator's `priorityA - priorityB < 0`. -/
def priLT : Option Int → Option Int → Bool
  | some x, some y => decide (x < y)
  | some _, none => true
  | none, _ => false

/-- The sort comparator on index-decorated routes: priorities compare
first (`undefined` as Infinity, equal only to itself), ties fall back to
the original index (`_originalIndex` in the source). -/
def routeIdxLE (a b : Nat × Route) : Prop :=
  if a.2.priority = b.2.priority then a.1 ≤ b.1
  else priLT a.2.priority b.2.priority = true

instance : DecidableRel routeIdxLE := fun a b => by
  unfold routeIdxLE
  infer_instance

lemma priLT_trans {x y z : Option Int}
    (h1 : priLT x y = true) (h2 : priLT y z = true) : priLT x z = true := by
  cases x <;> cases y <;> cases z <;> simp_all [priLT]
  omega

lemma priLT_asymm {x y : Option Int}
    (h1 : priLT x y = true) (h2 : priLT y x = true) : False := by
  cases x <;> cases y <;> simp_all [priLT]
  omega

instance : IsTotal (Nat × Route) routeIdxLE := by
  refine ⟨fun a b => ?_⟩
  unfold routeIdxLE
  by_cases h : a.2.priority = b.2.priority
  · rw [if_pos h, if_pos h.symm]
    exact Nat.le_total a.1 b.1
  · rw [if_neg h, if_neg (fun h2 => h h2.symm)]
    rcases hpa : a.2.priority with _ | x <;> rcases hpb : b.2.priority with _ | y
    · exact absurd (hpa.trans hpb.symm) h
    · right; rfl
    · left; rfl
    · rw [hpa, hpb] at h
      have hxy : x ≠ y := fun heq => h (by rw [heq])
      rcases lt_or_gt_of_ne hxy with hlt | hgt
      · left; simp [priLT, hlt]
      · right; simp [priLT, hgt]

instance : IsTrans (Nat × Route) routeIdxLE := by
  refine ⟨fun a b c hab hbc => ?_⟩
  unfold routeIdxLE at *
  by_cases h1 : a.2.priority = b.2.priority <;>
    by_cases h2 : b.2.priority = c.2.priority
  · rw [if_pos h1] at hab
    rw [if_pos h2] at hbc
    rw [if_pos (h1.trans h2)]
    omega
  · have h3 : a.2.priority ≠ c.2.priority := by rw [h1]; exact h2
    rw [if_neg h2] at hbc
    rw [if_neg h3, h1]
    exact hbc
  · have h3 : a.2.priority ≠ c.2.priority := by rw [← h2]; exact h1
    rw [if_neg h1] at hab
    rw [if_neg h3, ← h2]
    exact hab
  · rw [if_neg h1] at hab
    rw [if_neg h2] at hbc
    have hne : a.2.priority ≠ c.2.priority := by
      intro heq
      rw [heq] at hab
      exact priLT_asymm hbc hab
    rw [if_neg hne]
    exact priLT_trans hab hbc

/-- `sortRoutesByPriority`: decorate each route with its original index,
sort by the comparator (ascending priority, `undefined` last, ties by
original index — the comparator is a linear order on the decorated list,
so any correct sort, in particular the stable sort JavaScript specifies,
yields exactly this order), strip the decoration. -/
def sortRoutesByPriority (routes : List Route) : List Route :=
  (routes.enum.insertionSort routeIdxLE).map Prod.snd

/-- C6: sorting permutes the routes; the decorated sorted list is ordered
by the comparator, which on priority ties orders by original index
(stability); the stripped output is ascending in effective priority with
absent priority last; and the spec's concrete example
`[{priority:5,name:A},{name:B},{priority:5,name:C}]` sorts to
`[A, C, B]`. -/
theorem routeSortStable :
    ∀ routes : List Route,
      (sortRoutesByPriority routes).Perm routes ∧
      (routes.enum.insertionSort routeIdxLE).Pairwise routeIdxLE ∧
      (sortRoutesByPriority routes).Pairwise
        (fun x y => priLT x.priority y.priority = true ∨ x.priority = y.priority) ∧
      sortRoutesByPriority
        [{ name := some "A", event_match := "purchase", priority := some 5 },
         { name := some "B", event_match := "purchase" },
         { name := some "C", event_match := "purchase", priority := some 5 }] =
        [{ name := some "A", event_match := "purchase", priority := some 5 },
         { name := some "C", event_match := "purchase", priority := some 5 },
         { name := some "B", event_match := "purchase" }] := by
  intro routes
  refine ⟨?_, ?_, ?_, by decide⟩
  · have hperm := (List.perm_insertionSort routeIdxLE routes.enum).map Prod.snd
    rwa [List.enum_map_snd] at hperm
  · exact List.sorted_insertionSort routeIdxLE routes.enum
  · refine List.Pairwise.map Prod.snd ?_
      (List.sorted_insertionSort routeIdxLE routes.enum)
    intro a b hab
    unfold routeIdxLE at hab
    by_cases h : a.2.priority = b.2.priority
    · right; exact h
    · left
      rwa [if_neg h] at hab

/-! ## Route matching (`findMatchingRoutes`, router.js lines 183-199) -/

/-- The method test of the matching condition: `route.methods &&
route.methods.includes(method)` — a route with no `methods` field never
passes. -/
def methodsAllow (r : Route) (m : String) : Bool :=
  match r.methods with
  | some ms => ms.contains m
  | none => false

/-- `findMatchingRoutes(eventName, method)`: walk the (sorted) route
list; a route qualifies when its `event_match` wildcard-matches the event
name AND its declared methods include the request method; qualifying
routes are collected, and the loop breaks right after collecting a route
without `multi`.  A pattern whose regex construction throws propagates as
`none`; the break happens before later routes are examined, exactly as in
the source loop. -/
def findMatchingRoutes (eventName method : String) : List Route → Option (List Route)
  | [] => some []
  | r :: rest =>
      match matchesWildcard r.event_match eventName with
      | none => none
      | some w =>
          if w && methodsAllow r method then
            if r.multi then (findMatchingRoutes eventName method rest).map (r :: ·)
            else some [r]
          else findMatchingRoutes eventName method rest

/-- Stated from the spec's words, for comparison with the code: a route
qualifies when the wildcard matches and the method is allowed. -/
def qualifies (eventName method : String) (r : Route) : Bool :=
  (matchesWildcard r.event_match eventName).getD false && methodsAllow r method

/-- Stated from the spec's words, for comparison with the code: collect
the qualifying routes in order, stopping immediately after the first
qualifying route that does not have `multi: true`, so that the result is
the `multi` prefix of the qualifying routes plus the first non-`multi`
qualifying route when one exists. -/
def collectUntilFirstNonMulti (eventName method : String) (routes : List Route) :
    List Route :=
  let q := routes.filter (qualifies eventName method)
  q.takeWhile (fun r => r.multi) ++ (q.dropWhile (fun r => r.multi)).take 1

/-- C1: on every route list whose patterns compile, `findMatchingRoutes`
returns exactly the qualifying routes up to and including the first
non-`multi` qualifying one: earlier qualifying `multi` routes stay in the
result, and the scan stops at the first qualifying non-`multi` route. -/
theorem findMatchesShortCircuit (eventName method : String) :
    ∀ routes : List Route,
      (∀ r ∈ routes, (matchesWildcard r.event_match eventName).isSome = true) →
      findMatchingRoutes eventName method routes =
        some (collectUntilFirstNonMulti eventName method routes) := by
  intro routes
  induction routes with
  | nil => intro _; rfl
  | cons r rest ih =>
      intro h
      have hr := h r (List.mem_cons_self r rest)
      obtain ⟨w, hw⟩ := Option.isSome_iff_exists.mp hr
      have hrest := ih (fun x hx => h x (List.mem_cons_of_mem r hx))
      have hqual : qualifies eventName method r = (w && methodsAllow r method) := by
        simp [qualifies, hw]
      simp only [findMatchingRoutes, hw]
      by_cases hq : (w && methodsAllow r method) = true
      · rw [if_pos hq]
        by_cases hm : r.multi = true
        · rw [if_pos hm, hrest]
          simp only [collectUntilFirstNonMulti, List.filter_cons, hqual, hq,
            List.takeWhile_cons, List.dropWhile_cons, hm, if_true, Option.map_some']
          simp
        · rw [if_neg hm]
          simp only [collectUntilFirstNonMulti, List.filter_cons, hqual, hq,
            List.takeWhile_cons, List.dropWhile_cons, hm]
          simp [Bool.not_eq_true] at hm
          simp [hm]
      · rw [if_neg hq, hrest]
        simp only [collectUntilFirstNonMulti, List.filter_cons, hqual, hq]
        simp [Bool.not_eq_true] at hq
        simp [hq]

/-- C1 witness: the spec's ordered example `[R1(multi), R2(non-multi),
R3(multi)]`, all qualifying — the returned set is exactly `[R1, R2]`. -/
theorem findMatchesShortCircuit_witness :
    findMatchingRoutes "purchase" "POST"
        [{ name := some "R1", event_match := "*", methods := some ["POST"], multi := true },
         { name := some "R2", event_match := "*", methods := some ["POST"], multi := false },
         { name := some "R3", event_match := "*", methods := some ["POST"], multi := true }] =
      some
        [{ name := some "R1", event_match := "*", methods := some ["POST"], multi := true },
         { name := some "R2", event_match := "*", methods := some ["POST"], multi := false }] :=
  (findMatchesShortCircuit "purchase" "POST" _ (by decide)).trans (by decide)

/-! ## Method validation (`validateRequestMethod`, router.js lines 47-62) -/

structure MethodValidation where
  valid : Bool
  error : Option String := none
  allowedMethods : Option (List String) := none
  deriving Repr, DecidableEq

/-- Insertion-order deduplication, as `[...new Set(xs)]`. -/
def dedupFirstAux (seen : List String) : List String → List String
  | [] => []
  | x :: xs =>
      if seen.contains x then dedupFirstAux seen xs
      else x :: dedupFirstAux (x :: seen) xs

def dedupFirst (l : List String) : List String := dedupFirstAux [] l

/-- `validateRequestMethod`: the gate passes when SOME route has a
`methods` field containing the request method; on rejection, the `Allow`
header lists the union over `route.methods || ['POST']` — which defaults
a methods-less route to POST while the gate itself does not. -/
def validateRequestMethod (method : String) (routes : List Route) : MethodValidation :=
  let hasValidRoute := routes.any (fun r => methodsAllow r method)
  if hasValidRoute = false then
    { valid := false
      error := some ("Method " ++ method ++ " not allowed")
      allowedMethods :=
        some (dedupFirst ((routes.map (fun r => r.methods.getD ["POST"])).flatten)) }
  else { valid := true }

/-- C4 (code-bug evidence): a route whose configuration omits `methods`
does NOT default to POST in matching — a POST request matching its
wildcard finds no route (`findMatchingRoutes` returns the empty list),
and the method gate rejects POST outright; yet the very same gate's
`Allow` header computes the methods-less route's allowed set as
`["POST"]`, contradicting its own rejection. -/
theorem methodlessRouteNeverMatches :
    findMatchingRoutes "purchase" "POST"
        [{ event_match := "*", methods := none }] = some [] ∧
    (validateRequestMethod "POST" [{ event_match := "*", methods := none }]).valid = false ∧
    (validateRequestMethod "POST" [{ event_match := "*", methods := none }]).allowedMethods =
      some ["POST"] :=
  ⟨rfl, rfl, rfl⟩

/-! ## Route execution (`executeRoute`/`executeRoutes`, router.js lines 209-359)

The per-route effectful collaborators are abstracted as oracles:
`authenticate` models `auth.authenticate` (which returns a result object
and never throws), `transform` models `templateEngine.processTemplate`
(`Except.error` is a thrown error, caught by the route's `try/catch`),
and `send` models `sendToTarget` (`ok status` is a delivered response —
the source accepts any status below 500 — and `fail` carries the
classified error of a timeout, missing response, or 5xx).  All are
functions of the route (and payload), so one route's outcome cannot
depend on another route's. -/

structure AuthResult where
  success : Bool
  error : Option String := none
  deriving Repr, DecidableEq

inductive HttpResult where
  | ok (status : Nat)
  | fail (error : String) (errorCode : Option String)
  deriving Repr, DecidableEq

structure ExecResult where
  success : Bool
  route : Option String := none
  error : Option String := none
  status : Option Nat := none
  deriving Repr, DecidableEq

mutual
/-- Structural deep copy (`deepClone`, utils.js lines 152-173), used by
passthrough mode. -/
def deepClone : Json → Json
  | .str s => .str s
  | .num s => .num s
  | .bool b => .bool b
  | .null => .null
  | .arr xs => .arr (deepCloneList xs)
  | .obj fs => .obj (deepCloneFields fs)

def deepCloneList : List Json → List Json
  | [] => []
  | x :: xs => deepClone x :: deepCloneList xs

def deepCloneFields : List (String × Json) → List (String × Json)
  | [] => []
  | (k, v) :: fs => (k, deepClone v) :: deepCloneFields fs
end

/-- `executeRoute`: authenticate, then transform (template mode when the
`template` field is truthy — present and nonempty — else passthrough via
deep clone), then forward; every failure is caught and returned as a
result object naming only this route. -/
def executeRoute (authenticate : Route → AuthResult)
    (transform : Route → Except String Json)
    (send : Route → Json → HttpResult) (payload : Json) (r : Route) : ExecResult :=
  let a := authenticate r
  if a.success = false then
    { success := false, route := r.name, error := a.error }
  else
    match (match r.template with
           | some t => if t = "" then Except.ok (deepClone payload) else transform r
           | none => Except.ok (deepClone payload)) with
    | Except.error e => { success := false, route := r.name, error := some e }
    | Except.ok tp =>
        match send r tp with
        | HttpResult.fail e _ => { success := false, route := r.name, error := some e }
        | HttpResult.ok st => { success := true, route := r.name, status := some st }

/-- `executeRoutes`: sequential execution, one result per route, no
early exit of any kind. -/
def executeRoutes (authenticate : Route → AuthResult)
    (transform : Route → Except String Json)
    (send : Route → Json → HttpResult) (payload : Json) : List Route → List ExecResult
  | [] => []
  | r :: rest =>
      executeRoute authenticate transform send payload r ::
        executeRoutes authenticate transform send payload rest

def successCount (results : List ExecResult) : Nat :=
  (results.filter (fun r => r.success)).length

/-- Response bodies produced by the dispatcher (constructors mirror the
JSON bodies of the source). -/
inductive ResponseBody where
  | success (processed : Nat)
  | fallbackSuccess
  | unmatched (event : String)
  | err (msg : String)
  deriving Repr, DecidableEq

def joinCommaSpace : List String → String
  | [] => ""
  | [x] => x
  | x :: xs => x ++ ", " ++ joinCommaSpace xs

/-- The aggregation of `processRequest` (router.js lines 154-166):
HTTP 200 with `{status:"success", processed}` when at least one route
succeeded, else HTTP 500 with a joined message (debug) or a generic
one. -/
def aggregateResponse (debug : Bool) (results : List ExecResult) : Nat × ResponseBody :=
  let n := successCount results
  if n > 0 then (200, ResponseBody.success n)
  else
    let errorMessages := (results.filterMap (fun r => r.error)).filter (fun e => e != "")
    (500, ResponseBody.err
      (if debug then "All routes failed: " ++ joinCommaSpace errorMessages
       else "Internal Server Error"))

/-- `handleUnmatchedEvent` (router.js lines 413-457): with a fallback
route, execute it alone and answer from its own outcome; without one,
always HTTP 200 with `{status:"unmatched", event}`. -/
def handleUnmatchedEvent (authenticate : Route → AuthResult)
    (transform : Route → Except String Json) (send : Route → Json → HttpResult)
    (payload : Json) (debug : Bool) (fallbackRoute : Option Route)
    (eventName : String) : Nat × ResponseBody :=
  match fallbackRoute with
  | some fr =>
      let result := executeRoute authenticate transform send payload fr
      if result.success then (200, ResponseBody.fallbackSuccess)
      else
        (500, ResponseBody.err
          (if debug then "Fallback route failed: " ++ result.error.getD "undefined"
           else "Internal Server Error"))
  | none => (200, ResponseBody.unmatched eventName)

/-- The match-execute-respond segment of `processRequest` (router.js
lines 144-166), after method and payload validation. -/
def routeAndRespond (authenticate : Route → AuthResult)
    (transform : Route → Except String Json) (send : Route → Json → HttpResult)
    (payload : Json) (debug : Bool) (routes : List Route)
    (fallbackRoute : Option Route) (eventName method : String) :
    Option (Nat × ResponseBody) :=
  match findMatchingRoutes eventName method routes with
  | none => none
  | some matching =>
      if matching.isEmpty then
        some (handleUnmatchedEvent authenticate transform send payload debug
          fallbackRoute eventName)
      else
        some (aggregateResponse debug
          (executeRoutes authenticate transform send payload matching))

lemma executeRoutes_eq_map (authenticate : Route → AuthResult)
    (transform : Route → Except String Json) (send : Route → Json → HttpResult)
    (payload : Json) :
    ∀ routes : List Route,
      executeRoutes authenticate transform send payload routes =
        routes.map (executeRoute authenticate transform send payload) := by
  intro routes
  induction routes with
  | nil => rfl
  | cons r rest ih => simp [executeRoutes, ih]

/-- C8: with a non-empty matched set, every route is executed and its
outcome is a function of that route alone — the result list is exactly
the per-route map, so no earlier auth, transform, or forward failure
aborts a later sibling; and the aggregate answers 200 with
`{status:"success", processed: successCount}` whenever at least one
route succeeded, 500 whenever all failed. -/
theorem perRouteIsolationAndAggregate (authenticate : Route → AuthResult)
    (transform : Route → Except String Json) (send : Route → Json → HttpResult)
    (payload : Json) (debug : Bool) (routes : List Route) (_hne : routes ≠ []) :
    executeRoutes authenticate transform send payload routes =
      routes.map (executeRoute authenticate transform send payload) ∧
    (0 < successCount (executeRoutes authenticate transform send payload routes) →
      aggregateResponse debug (executeRoutes authenticate transform send payload routes) =
        (200, ResponseBody.success
          (successCount (executeRoutes authenticate transform send payload routes)))) ∧
    (successCount (executeRoutes authenticate transform send payload routes) = 0 →
      (aggregateResponse debug
        (executeRoutes authenticate transform send payload routes)).1 = 500) := by
  refine ⟨executeRoutes_eq_map authenticate transform send payload routes, ?_, ?_⟩
  · intro hpos
    simp only [aggregateResponse]
    rw [if_pos hpos]
  · intro hzero
    simp only [aggregateResponse]
    rw [if_neg (by omega)]

/-- C8 witness: a single always-authenticated passthrough route with a
delivered forward — one success, so the aggregate is
`(200, success 1)`. -/
theorem perRouteIsolationAndAggregate_witness :
    successCount (executeRoutes (fun _ => { success := true })
        (fun _ => Except.ok Json.null) (fun _ _ => HttpResult.ok 200) Json.null
        [{ event_match := "*" }]) = 1 ∧
    aggregateResponse false (executeRoutes (fun _ => { success := true })
        (fun _ => Except.ok Json.null) (fun _ _ => HttpResult.ok 200) Json.null
        [{ event_match := "*" }]) =
      (200, ResponseBody.success (successCount (executeRoutes (fun _ => { success := true })
        (fun _ => Except.ok Json.null) (fun _ _ => HttpResult.ok 200) Json.null
        [{ event_match := "*" }]))) :=
  ⟨rfl,
   (perRouteIsolationAndAggregate (fun _ => { success := true })
      (fun _ => Except.ok Json.null) (fun _ _ => HttpResult.ok 200) Json.null false
      [{ event_match := "*" }] (by decide)).2.1 (by decide)⟩

/-- C9: when no regular route matches a valid payload's event name, the
fallback route (when configured) is executed as a single route and the
response follows its own outcome — 200 `{status:"success", processed:1,
fallback:true}` on success, 500 on failure; with no fallback route the
response is always 200 `{status:"unmatched", event}` — never an error. -/
theorem unmatchedEventHandling (authenticate : Route → AuthResult)
    (transform : Route → Except String Json) (send : Route → Json → HttpResult)
    (payload : Json) (debug : Bool) (routes : List Route)
    (fallbackRoute : Option Route) (eventName method : String)
    (hmatch : findMatchingRoutes eventName method routes = some []) :
    (∀ fr, fallbackRoute = some fr →
        ((executeRoute authenticate transform send payload fr).success = true →
          routeAndRespond authenticate transform send payload debug routes
              fallbackRoute eventName method = some (200, ResponseBody.fallbackSuccess)) ∧
        ((executeRoute authenticate transform send payload fr).success = false →
          (routeAndRespond authenticate transform send payload debug routes
              fallbackRoute eventName method).map Prod.fst = some 500)) ∧
    (fallbackRoute = none →
        routeAndRespond authenticate transform send payload debug routes
            fallbackRoute eventName method =
          some (200, ResponseBody.unmatched eventName)) := by
  constructor
  · intro fr hfr
    subst hfr
    constructor
    · intro hsucc
      simp [routeAndRespond, hmatch, handleUnmatchedEvent, hsucc]
    · intro hfail
      simp [routeAndRespond, hmatch, handleUnmatchedEvent, hfail]
  · intro hnone
    subst hnone
    simp only [routeAndRespond, hmatch, List.isEmpty_nil, if_true, handleUnmatchedEvent]

/-- C9 witness: an empty route table and no fallback — the response to
event `"x"` is `(200, unmatched "x")`. -/
theorem unmatchedEventHandling_witness :
    routeAndRespond (fun _ => { success := true }) (fun _ => Except.ok Json.null)
        (fun _ _ => HttpResult.ok 200) Json.null false [] none "x" "POST" =
      some (200, ResponseBody.unmatched "x") :=
  (unmatchedEventHandling (fun _ => { success := true }) (fun _ => Except.ok Json.null)
      (fun _ _ => HttpResult.ok 200) Json.null false [] none "x" "POST" rfl).2 rfl
